import Mathlib

/-!
Shallow embedding of the `sample_until` package
(`src/sample_until/sample_until.py`, `sample_until_folded.py`,
`stopping_conditions.py`, `utils.py`) and proofs about it.

Modelling conventions:
* Python floats (`duration_seconds`, `memory_percentage`, `size_mb`,
  `time.time()` readings, `psutil.virtual_memory()[2]`) are modelled as
  exact rationals `ℚ`; Python ints as `Int`/`Nat`.
* Wall-clock time and system memory are oracles: an `Env` carries the
  successive readings `timeAt k` / `memAt k` that the `k`-th check of a
  sampling loop observes, plus `cpuCount` for `mp.cpu_count()`.
* `pickle.dumps` is an oracle `pickle : List β → Nat` giving the byte
  length of the serialization of a list of samples.
* A Python call that raises is an `Except PyError` value; warnings
  emitted via `warnings.warn` are collected in a `List Warn`.
-/

namespace SampleUntil

/-- The Python exceptions distinguished by the embedded code
(`ValueError`s are split by their message; `TypeError` covers both a
call with a missing required positional argument and `len()` applied to
an `int`). -/
inductive PyError where
  | typeError
  | valueErrorProvideStoppingCondition
  | valueErrorDuration
  | valueErrorNumSamples
  | valueErrorMemoryPercentage
  | valueErrorNumWorkers
  | valueErrorSizeMb
  | valueErrorFoldFunction
  | runtimeErrorFoldingCrashed
  deriving DecidableEq

/-- The advisory warnings the source can emit via `warnings.warn`. -/
inductive Warn where
  | arityUnknown
  | finitenessUnknown
  | queueFull
  | foldingSlow
  deriving DecidableEq

/-- Execution environment: start time, the oracle streams of wall-clock
and memory readings, and the host cpu count. -/
structure Env where
  startTime : ℚ
  timeAt : Nat → ℚ
  memAt : Nat → ℚ
  cpuCount : Nat

/-- The four stopping-condition dataclasses of `stopping_conditions.py`. `OutputSize` carries
its mutable `size_estimate` calibration field. -/
inductive StoppingCondition where
  | timeElapsed (start_time duration_seconds : ℚ)
  | numSamples (num_samples : Int)
  | memoryPercentage (memory_percentage : ℚ)
  | outputSize (size_mb size_estimate : ℚ)
  deriving DecidableEq

/-- Constructor check `TimeElapsed.__post_init__`: rejects `duration_seconds <= 0`. -/
def TimeElapsed_mk (start_time duration_seconds : ℚ) : Except PyError StoppingCondition :=
  if duration_seconds ≤ 0 then .error .valueErrorDuration
  else .ok (.timeElapsed start_time duration_seconds)

/-- Constructor check `NumSamples.__post_init__`: rejects `num_samples <= 0`. -/
def NumSamples_mk (num_samples : Int) : Except PyError StoppingCondition :=
  if num_samples ≤ 0 then .error .valueErrorNumSamples
  else .ok (.numSamples num_samples)

/-- Constructor check `MemoryPercentage.__post_init__`: rejects values outside `[0, 1]`. -/
def MemoryPercentage_mk (memory_percentage : ℚ) : Except PyError StoppingCondition :=
  if memory_percentage < 0 ∨ 1 < memory_percentage then .error .valueErrorMemoryPercentage
  else .ok (.memoryPercentage memory_percentage)

/-- Constructor check `OutputSize.__post_init__`: rejects `size_mb <= 0`; `size_estimate`
starts at `0.0`. -/
def OutputSize_mk (size_mb : ℚ) : Except PyError StoppingCondition :=
  if size_mb ≤ 0 then .error .valueErrorSizeMb
  else .ok (.outputSize size_mb 0)

/-- Python `math.ceil(a / b)` where `/` is true division, modelled
exactly over `ℚ`. -/
def ceil_div (a : Int) (b : Nat) : Int := Int.ceil ((a : ℚ) / (b : ℚ))

/-- Embedding of `create_stopping_conditions(num_workers, duration_seconds,
num_samples, memory_percentage, size_mb)` called with all five of its
required positional arguments: one condition per provided bound, in
registration order; the count target is `ceil(num_samples /
num_workers)` and the size target is `size_mb / num_workers`. -/
def create_stopping_conditions (now : ℚ) (num_workers : Nat)
    (duration_seconds : Option ℚ) (num_samples : Option Int)
    (memory_percentage : Option ℚ) (size_mb : Option ℚ) :
    Except PyError (List StoppingCondition) := do
  let l0 : List StoppingCondition := []
  let l1 ← match duration_seconds with
    | none => pure l0
    | some d => do
        let sc ← TimeElapsed_mk now d
        pure (l0 ++ [sc])
  let l2 ← match num_samples with
    | none => pure l1
    | some ns => do
        let sc ← NumSamples_mk (ceil_div ns num_workers)
        pure (l1 ++ [sc])
  let l3 ← match memory_percentage with
    | none => pure l2
    | some mp => do
        let sc ← MemoryPercentage_mk mp
        pure (l2 ++ [sc])
  let l4 ← match size_mb with
    | none => pure l3
    | some s => do
        let sc ← OutputSize_mk (s / (num_workers : ℚ))
        pure (l3 ++ [sc])
  pure l4

/-- The `progress` value handed to a stopping condition's `stop` method:
the single-process samplers pass the growing list of samples, the folded
samplers pass the running iteration count (a Python `int`). -/
inductive Progress (β : Type) where
  | samples (l : List β)
  | count (n : Nat)

/-- One `sc.stop(progress)` call. `now`/`memNow` are the wall-clock and
memory readings the call observes; `pickle` is the serializer oracle.
`NumSamples.stop` and `OutputSize.stop` evaluate `len(samples)`, which
raises `TypeError` when the progress value is an `int`. The returned
condition reflects the in-place mutation of `OutputSize.size_estimate`. -/
def scStop (pickle : List β → Nat) (now memNow : ℚ) :
    StoppingCondition → Progress β → Except PyError (Bool × StoppingCondition)
  | .timeElapsed start_time duration_seconds, _ =>
      .ok (decide (duration_seconds ≤ now - start_time),
        .timeElapsed start_time duration_seconds)
  | .numSamples ns, p =>
      match p with
      | .count _ => .error .typeError
      | .samples l => .ok (decide (ns ≤ (l.length : Int)), .numSamples ns)
  | .memoryPercentage mp, _ =>
      .ok (decide (mp ≤ memNow / 100), .memoryPercentage mp)
  | .outputSize size_mb size_estimate, p =>
      match p with
      | .count _ => .error .typeError
      | .samples l =>
        if size_estimate = 0 then
          if 1 < l.length then
            let est := (pickle (l.take 2) : ℚ) / 1000000 - (pickle (l.take 1) : ℚ) / 1000000
            .ok (decide (size_mb ≤ est * (l.length : ℚ)), .outputSize size_mb est)
          else .ok (false, .outputSize size_mb size_estimate)
        else .ok (decide (size_mb ≤ size_estimate * (l.length : ℚ)),
          .outputSize size_mb size_estimate)

/-- The free function `stop(stopping_conditions, samples)`: evaluates
the conditions in registration order, short-circuiting on the first
satisfied one; exceptions propagate. The returned list reflects the
in-place state mutation of the evaluated conditions. -/
def stop (pickle : List β → Nat) (now memNow : ℚ) :
    List StoppingCondition → Progress β → Except PyError (Bool × List StoppingCondition)
  | [], _ => .ok (false, [])
  | sc :: rest, p =>
    match scStop pickle now memNow sc p with
    | .error e => .error e
    | .ok (true, sc') => .ok (true, sc' :: rest)
    | .ok (false, sc') =>
      match stop pickle now memNow rest p with
      | .error e => .error e
      | .ok (b, rest') => .ok (b, sc' :: rest')

/-- Classification of the `f_args` argument of `sample_until`, as seen
by the `isinstance` checks of the source: absent (`None`), one of the
clearly-infinite canonical generators (`itertools.repeat`, `cycle`,
`count`), or an iterator yielding a finite list of items, with
`is_sized` recording whether it is an instance of `typing.Sized`. -/
inductive FArgsV (α : Type) where
  | pyNone
  | pyRepeat
  | pyCycle
  | pyCount
  | finiteIter (items : List α) (is_sized : Bool)
  deriving DecidableEq

/-- Result of the sampling phase of `sample_until`. Sampling driven by
an input stream with no finite element list (`f_args=None`, where `f`
is resampled indefinitely, or a canonical infinite generator) is a
wall-clock-bounded `while` loop with no structural termination; those
runs are outside the finite-input fragment embedded here and are marked
`notModeled`. Every run exercised by the claims is list-driven. -/
inductive RunOutcome (β : Type) where
  | samples (l : List β)
  | notModeled
  deriving DecidableEq

/-- Check `(time.time() - start_time) >= duration` at the `k`-th check of a
sampling loop; a `duration_seconds` of `None` was replaced by
`float("inf")`, which never fires. -/
def timeFires (env : Env) (duration_seconds : Option ℚ) (k : Nat) : Bool :=
  match duration_seconds with
  | none => false
  | some d => decide (d ≤ env.timeAt k - env.startTime)

/-- Check `len(samples) >= num_samples`; a `num_samples` of `None` was
replaced by `sys.maxsize`, which never fires for a Python list (whose
length is below `sys.maxsize`). -/
def capFires (num_samples : Option Int) (len : Nat) : Bool :=
  match num_samples with
  | none => false
  | some c => decide (c ≤ (len : Int))

/-- Check `psutil.virtual_memory()[2] / 100.0 >= memory_percentage` at the
`k`-th check. -/
def memFires (env : Env) (memory_percentage : ℚ) (k : Nat) : Bool :=
  decide (memory_percentage ≤ env.memAt k / 100)

/-- The loop body of `_sample_until_f_args`: for each argument, first
check the three conditions, break on any of them, otherwise append
`f(a)`. `k` counts the checks performed so far, `samples` is the list
built up so far. -/
def sampleUntilFArgsGo (env : Env) (f : α → β) (duration_seconds : Option ℚ)
    (num_samples : Option Int) (memory_percentage : ℚ) :
    List α → Nat → List β → List β
  | [], _, samples => samples
  | a :: rest, k, samples =>
    if timeFires env duration_seconds k || capFires num_samples samples.length
        || memFires env memory_percentage k then samples
    else sampleUntilFArgsGo env f duration_seconds num_samples memory_percentage
      rest (k + 1) (samples ++ [f a])

/-- Embedding of `_sample_until_f_args(f, f_args, start_time, duration,
num_samples, memory_percentage)`. -/
def _sample_until_f_args (env : Env) (f : α → β) (f_args : List α)
    (duration_seconds : Option ℚ) (num_samples : Option Int)
    (memory_percentage : ℚ) : List β :=
  sampleUntilFArgsGo env f duration_seconds num_samples memory_percentage f_args 0 []

/-- Every `n`-th element of a list, starting with the first. -/
def takeEvery (n : Nat) : List α → List α
  | [] => []
  | a :: rest => a :: takeEvery n (rest.drop (n - 1))
termination_by l => l.length
decreasing_by
  simp only [List.length_drop, List.length_cons]
  omega

/-- Embedding of `islice(f_args, i, None, num_workers)`: the interleaved slice of the
input stream consumed by worker `i`. -/
def islice_interleaved (f_args : List α) (i num_workers : Nat) : List α :=
  takeEvery num_workers (f_args.drop i)

/-- The `num_workers > 1` branch of `sample_until`: worker `i` runs
`_sample_until_f_args` over its interleaved slice with the count target
`math.ceil(num_samples / num_workers)`. The returned list is indexed by
worker; the caller gathers the per-worker lists from the output queue
in arrival order, which is nondeterministic across runs, so results are
meaningful up to permutation of the worker blocks. -/
def sample_until_parallel (env : Env) (f : α → β) (f_args : List α)
    (duration_seconds : Option ℚ) (num_samples : Option Int)
    (memory_percentage : ℚ) (num_workers : Nat) : List (List β) :=
  (List.range num_workers).map (fun i =>
    _sample_until_f_args env f (islice_interleaved f_args i num_workers)
      duration_seconds (num_samples.map (fun c => ceil_div c num_workers))
      memory_percentage)

/-- Embedding of `sample_until` lines 57-67: when no stopping condition is provided,
reject `f_args=None` and the canonical infinite generators with
`ValueError`, warn when finiteness of `f_args` cannot be determined
(not `Sized`), and proceed silently for a `Sized` input. -/
def check_stopping_conditions_provided (f_args : FArgsV α) : Except PyError (List Warn) :=
  match f_args with
  | .pyNone => .error .valueErrorProvideStoppingCondition
  | .pyRepeat => .error .valueErrorProvideStoppingCondition
  | .pyCycle => .error .valueErrorProvideStoppingCondition
  | .pyCount => .error .valueErrorProvideStoppingCondition
  | .finiteIter _ false => .ok [.finitenessUnknown]
  | .finiteIter _ true => .ok []

/-- Test whether `o` is `some x` with `p x` true. -/
def optCheck (o : Option γ) (p : γ → Bool) : Bool :=
  match o with
  | none => false
  | some x => p x

/-- Embedding of `sample_until` lines 81-89, the validity checks run after the
`None` replacements (`nw` is the already-resolved worker count). Note
that the source tests `num_samples < 0` — not `<= 0` — although its own
error message reads "num_samples has to be > 0". -/
def sample_until_validate (duration_seconds : Option ℚ) (num_samples : Option Int)
    (memory_percentage : Option ℚ) (nw : Int) : Option PyError :=
  if optCheck duration_seconds (fun d => decide (d ≤ 0)) then some .valueErrorDuration
  else if optCheck num_samples (fun c => decide (c < 0)) then some .valueErrorNumSamples
  else if optCheck memory_percentage (fun m => decide (m < 0 ∨ 1 < m)) then
    some .valueErrorMemoryPercentage
  else if nw < 1 then some .valueErrorNumWorkers
  else none

/-- The entry point `sample_until(f, f_args, duration_seconds,
num_samples, memory_percentage, num_workers)` (its signature has no
`size_mb` parameter, cf. `sample_until_params`). Modelled for calls
where the arity of `f` is consistent with `f_args` (arity introspection
is an external collaborator). Returns the emitted warnings and either
the raised exception or the collected samples; for `num_workers > 1`
the per-worker partial lists are concatenated (arrival order at the
result queue is nondeterministic in reality). -/
def sample_until (env : Env) (f : α → β) (f_args : FArgsV α)
    (duration_seconds : Option ℚ) (num_samples : Option Int)
    (memory_percentage : Option ℚ) (num_workers : Option Int) :
    List Warn × Except PyError (RunOutcome β) :=
  match (if duration_seconds = none ∧ num_samples = none ∧ memory_percentage = none then
      check_stopping_conditions_provided f_args
    else .ok []) with
  | .error e => ([], .error e)
  | .ok warns =>
    let nw : Int := match num_workers with
      | none => 1
      | some w => if w = -1 then (env.cpuCount : Int) else w
    match sample_until_validate duration_seconds num_samples memory_percentage nw with
    | some e => (warns, .error e)
    | none =>
      let memPct : ℚ := memory_percentage.getD 1
      match f_args with
      | .finiteIter items _ =>
        if nw = 1 then
          (warns, .ok (.samples
            (_sample_until_f_args env f items duration_seconds num_samples memPct)))
        else
          (warns, .ok (.samples
            (sample_until_parallel env f items duration_seconds num_samples memPct
              nw.toNat).flatten))
      | _ => (warns, .ok .notModeled)

/-- The parameter names of the `def sample_until(...)` signature in
`sample_until.py`, in order. -/
def sample_until_params : List String :=
  ["f", "f_args", "duration_seconds", "num_samples", "memory_percentage", "num_workers"]

/-- Python call semantics: a keyword argument is accepted exactly when
it names one of the callee's parameters (none of `sample_until`'s
parameters is positional-only and the signature has no `**kwargs`);
otherwise the call raises `TypeError` before the body runs. -/
def acceptsKeyword (params : List String) (kw : String) : Bool :=
  params.contains kw

/-- The keyword argument used by `tests/test_sample_until_size.py` when
calling `sample_until`. -/
def size_mb_kw : String := "size_mb"

/-- Embedding of `utils._set_num_workers`. -/
def _set_num_workers (env : Env) (num_workers : Option Int) : Except PyError Int :=
  match num_workers with
  | none => .ok 1
  | some w =>
    if w = -1 then .ok (env.cpuCount : Int)
    else if w ≤ 0 then .error .valueErrorNumWorkers
    else .ok w

/-- Embedding of `utils.sanitize_inputs`, as called by `folded_sample_until`
(arity introspection of `f` is external and modelled as consistent).
After resolving the worker count, the source evaluates
`create_stopping_conditions(num_workers, duration_seconds, num_samples,
memory_percentage)` — 4 positional arguments for a function all 5 of
whose parameters (the last being `size_mb`) lack defaults — so the
interpreter raises `TypeError` before entering the callee; the
zero-stopping-condition check below that call is dead code. -/
def sanitize_inputs (env : Env) (duration_seconds : Option ℚ) (num_samples : Option Int)
    (memory_percentage : Option ℚ) (num_workers : Option Int) :
    Except PyError (Int × List StoppingCondition) :=
  match _set_num_workers env num_workers with
  | .error e => .error e
  | .ok _ => .error .typeError

/-- The loop of `_sample_until_folded`: fold `f(a)` into the
accumulator, bump the iteration count, then evaluate
`stop(stopping_conditions, i)` with the integer count as progress
(exceptions raised there propagate); exhausting `f_args` returns
normally. The threaded condition list carries the in-place state of the
conditions. -/
def sampleUntilFoldedGo (env : Env) (pickle : List β → Nat) (f : α → β)
    (fold_function : A → β → A) :
    List α → A → Nat → List StoppingCondition → Except PyError (A × Nat)
  | [], acc, i, _ => .ok (acc, i)
  | a :: rest, acc, i, conds =>
    let acc' := fold_function acc (f a)
    let i' := i + 1
    match stop pickle (env.timeAt i') (env.memAt i') conds (.count i') with
    | .error e => .error e
    | .ok (true, _) => .ok (acc', i')
    | .ok (false, conds') => sampleUntilFoldedGo env pickle f fold_function rest acc' i' conds'

/-- Embedding of `_sample_until_folded(f, fold_function, fold_initial,
f_args, stopping_conditions)`. -/
def _sample_until_folded (env : Env) (pickle : List β → Nat) (f : α → β)
    (fold_function : A → β → A) (fold_initial : A) (f_args : List α)
    (stopping_conditions : List StoppingCondition) : Except PyError (A × Nat) :=
  sampleUntilFoldedGo env pickle f fold_function f_args fold_initial 0 stopping_conditions

/-- The entry point `folded_sample_until`. It first runs
`sanitize_inputs`, which always raises `TypeError` in this snapshot
(see `sanitize_inputs`); everything after that call — including
`check_fold_function` and both sampling branches — is dead code. The
`num_workers > 1` branch would repeat the 4-positional-argument call to
`create_stopping_conditions` and raise `TypeError` again. -/
def folded_sample_until (env : Env) (pickle : List β → Nat) (f : α → β)
    (fold_function : A → β → A) (fold_initial : A) (f_args : List α)
    (duration_seconds : Option ℚ) (num_samples : Option Int)
    (memory_percentage : Option ℚ) (num_workers : Option Int) :
    Except PyError (A × Nat) :=
  match sanitize_inputs env duration_seconds num_samples memory_percentage num_workers with
  | .error e => .error e
  | .ok (nw, conds) =>
    if nw = 1 then
      _sample_until_folded env pickle f fold_function fold_initial f_args conds
    else .error .typeError

/-- An element of the bounded aggregation queue: a batch of samples or
the `DoneSignal` sentinel. -/
inductive QItem (β : Type) where
  | batch (l : List β)
  | done
  deriving DecidableEq

/-- Number of `DoneSignal` sentinels in a queue trace. -/
def doneCount : List (QItem β) → Nat
  | [] => 0
  | .done :: rest => doneCount rest + 1
  | .batch _ :: rest => doneCount rest

/-- All samples carried by the batches of a queue trace, in order. -/
def batchItems : List (QItem β) → List β
  | [] => []
  | .done :: rest => batchItems rest
  | .batch l :: rest => l ++ batchItems rest

/-- The loop of `sample_until_folded._worker`: append `f(a)` to the
local batch, put the batch on the queue once it reaches `batch_size`,
bump `i`, then evaluate `stop(stopping_conditions, i)` with the integer
count; on a local stop flush the partial batch and return, and flush it
as well when `f_args` is exhausted. Returns the sequence of queue puts
the worker performs and, if `stop` raised, the propagated exception
(the worker process dies without flushing). The worker itself never
puts a `DoneSignal`. -/
def workerGo (env : Env) (pickle : List β → Nat) (f : α → β) (batch_size : Nat) :
    List α → Nat → List β → List (QItem β) → List StoppingCondition →
    List (QItem β) × Option PyError
  | [], _, batch, puts, _ =>
    (puts ++ (if batch.isEmpty then [] else [.batch batch]), none)
  | a :: rest, i, batch, puts, conds =>
    let batch1 := batch ++ [f a]
    let puts1 := if batch_size ≤ batch1.length then puts ++ [.batch batch1] else puts
    let batch2 := if batch_size ≤ batch1.length then [] else batch1
    let i' := i + 1
    match stop pickle (env.timeAt i') (env.memAt i') conds (.count i') with
    | .error e => (puts1, some e)
    | .ok (true, _) =>
      (puts1 ++ (if batch2.isEmpty then [] else [.batch batch2]), none)
    | .ok (false, conds') => workerGo env pickle f batch_size rest i' batch2 puts1 conds'

/-- Embedding of `sample_until_folded._worker(f, f_args,
stopping_conditions, batch_size, output_queue)`. -/
def _worker (env : Env) (pickle : List β → Nat) (f : α → β) (f_args : List α)
    (stopping_conditions : List StoppingCondition) (batch_size : Nat) :
    List (QItem β) × Option PyError :=
  workerGo env pickle f batch_size f_args 0 [] [] stopping_conditions

/-- The loop of `sample_until_folded._aggregate`: while fewer than
`num_workers` `DoneSignal`s have been seen, get the next queue item;
a sentinel bumps the finished-worker count, a batch is folded into the
accumulator element by element and counted. `q` is the arrival order of
the queue items; an exhausted `q` before the required sentinels models
the aggregator blocking forever (`none`). The queue-full backpressure
advisory only emits a warning and does not affect the result; it is not
modelled. -/
def aggregateGo (fold_function : A → β → A) (num_workers : Nat) :
    List (QItem β) → A → Nat → Nat → Option (A × Nat)
  | [], acc, i, finished =>
    if num_workers ≤ finished then some (acc, i) else none
  | .done :: rest, acc, i, finished =>
    if num_workers ≤ finished then some (acc, i)
    else aggregateGo fold_function num_workers rest acc i (finished + 1)
  | .batch l :: rest, acc, i, finished =>
    if num_workers ≤ finished then some (acc, i)
    else aggregateGo fold_function num_workers rest (l.foldl fold_function acc)
      (i + l.length) finished

/-- Embedding of `sample_until_folded._aggregate(output_queue, aggregator_queue,
fold_function, fold_initial, num_workers)`: consumes the queue until
one `DoneSignal` per sampling worker has been observed, then publishes
`(acc, i)` on the result channel. -/
def _aggregate (fold_function : A → β → A) (fold_initial : A) (num_workers : Nat)
    (q : List (QItem β)) : Option (A × Nat) :=
  aggregateGo fold_function num_workers q fold_initial 0 0

/-- What the caller observes on one iteration of the result-wait loop
of `folded_sample_until`: `aggregator_queue.get(timeout=20)` returns a
result, or it times out with the aggregator process still alive, or it
times out and the aggregator is found dead. -/
inductive WaitEvent (R : Type) where
  | got (r : R)
  | timeoutAlive
  | timeoutDead
  deriving DecidableEq

/-- The `while True` result-wait loop at the end of
`folded_sample_until`, over the sequence of per-iteration observations.
Each iteration re-initializes `crashed = False` and `warned = False`;
a successful `get` returns the output, a timeout with a dead aggregator
raises `RuntimeError("Folding process crashed!")`, and a timeout with a
live aggregator emits the slow-folding advisory — `warned` being reset
at the top of the loop, the advisory is emitted on every such
iteration. Returns the emitted warnings and the outcome (`none` when
the observation sequence is exhausted with the caller still waiting). -/
def waitForAggregator : List (WaitEvent R) → List Warn × Option (Except PyError R)
  | [] => ([], none)
  | .got r :: _ => ([], some (.ok r))
  | .timeoutDead :: _ => ([], some (.error .runtimeErrorFoldingCrashed))
  | .timeoutAlive :: rest =>
    let (w, out) := waitForAggregator rest
    (.foldingSlow :: w, out)

/-- Concrete quiet environment used by the concrete evaluations below:
sampling starts at time `0`, all wall-clock readings are `0`, the memory
gauge always reads `0`, and the host has 4 cpus. -/
def env0 : Env := ⟨0, fun _ => 0, fun _ => 0, 4⟩

/-- Concrete serializer oracle for `Nat` samples: 2 MB per element. -/
def pickle0 : List Nat → Nat := fun l => 2000000 * l.length

/-- Computation rule for `ceil_div`: `math.ceil(a / b)` is `-((-a) / b)`
with integer (floor) division. -/
lemma ceil_div_eq_neg_ediv (a : Int) (b : Nat) : ceil_div a b = -(-a / (b : Int)) := by
  unfold ceil_div
  rw [← Rat.floor_intCast_div_natCast (-a) b]
  rw [← neg_neg (Int.ceil ((a : ℚ) / (b : ℚ))), ← Int.floor_neg]
  congr 2
  push_cast
  ring

/-- The ceiling of `a / b` scaled back by `b` is at least `a`. -/
lemma le_mul_ceil_div (a : Int) (b : Nat) (hb : 0 < b) : a ≤ (b : Int) * ceil_div a b := by
  have hb' : (0 : ℚ) < (b : ℚ) := by exact_mod_cast hb
  have h := Int.le_ceil ((a : ℚ) / (b : ℚ))
  rw [div_le_iff₀ hb'] at h
  unfold ceil_div
  exact_mod_cast (by linarith : (a : ℚ) ≤ (b : ℚ) * ((Int.ceil ((a : ℚ) / (b : ℚ)) : ℤ) : ℚ))

/-- The ceiling of `a / b` scaled back by `b` overshoots `a` by less
than `b`. -/
lemma mul_ceil_div_lt (a : Int) (b : Nat) (hb : 0 < b) : (b : Int) * ceil_div a b < a + b := by
  have hb' : (0 : ℚ) < (b : ℚ) := by exact_mod_cast hb
  have h := Int.ceil_lt_add_one ((a : ℚ) / (b : ℚ))
  have h2 : ((Int.ceil ((a : ℚ) / (b : ℚ)) : ℤ) : ℚ) * b < ((a : ℚ) / b + 1) * b :=
    mul_lt_mul_of_pos_right h hb'
  rw [add_mul, one_mul, div_mul_cancel₀ _ (ne_of_gt hb')] at h2
  unfold ceil_div
  exact_mod_cast (by linarith :
    (b : ℚ) * ((Int.ceil ((a : ℚ) / (b : ℚ)) : ℤ) : ℚ) < (a : ℚ) + (b : ℚ))

/-- A positive count divided (ceiling) among positive many workers gives
a positive per-worker target. -/
lemma ceil_div_pos (a : Int) (b : Nat) (ha : 0 < a) (hb : 0 < b) : 0 < ceil_div a b := by
  by_contra h
  push_neg at h
  have h1 := le_mul_ceil_div a b hb
  have h2 : (b : Int) * ceil_div a b ≤ 0 :=
    mul_nonpos_of_nonneg_of_nonpos (by exact_mod_cast Nat.zero_le b) h
  omega

/-- The ceiling value is nonnegative for a nonnegative numerator. -/
lemma ceil_div_nonneg (a : Int) (b : Nat) (ha : 0 ≤ a) : 0 ≤ ceil_div a b := by
  unfold ceil_div
  apply Int.ceil_nonneg
  positivity

/-- Natural-number form of `le_mul_ceil_div`. -/
lemma nat_le_mul_ceil_div (c N : Nat) (hN : 0 < N) :
    c ≤ N * (ceil_div (c : Int) N).toNat := by
  have h0 : (0 : Int) ≤ ceil_div (c : Int) N := ceil_div_nonneg _ _ (by exact_mod_cast Nat.zero_le c)
  have h1 := le_mul_ceil_div (c : Int) N hN
  have h2 : ((ceil_div (c : Int) N).toNat : Int) = ceil_div (c : Int) N := Int.toNat_of_nonneg h0
  have : (c : Int) ≤ (N : Int) * ((ceil_div (c : Int) N).toNat : Int) := by rw [h2]; exact h1
  exact_mod_cast this

/-- Natural-number form of `mul_ceil_div_lt`. -/
lemma nat_mul_ceil_div_le (c N : Nat) (hN : 0 < N) :
    N * (ceil_div (c : Int) N).toNat ≤ c + (N - 1) := by
  have h0 : (0 : Int) ≤ ceil_div (c : Int) N := ceil_div_nonneg _ _ (by exact_mod_cast Nat.zero_le c)
  have h1 := mul_ceil_div_lt (c : Int) N hN
  have h2 : ((ceil_div (c : Int) N).toNat : Int) = ceil_div (c : Int) N := Int.toNat_of_nonneg h0
  have h3 : (N : Int) * ((ceil_div (c : Int) N).toNat : Int) < (c : Int) + (N : Int) := by
    rw [h2]; exact h1
  have h4 : N * (ceil_div (c : Int) N).toNat < c + N := by exact_mod_cast h3
  omega

/-- A sampling loop in which neither the time condition nor the memory
condition ever fires and no count bound is given maps `f` over the whole
remaining input. -/
lemma sampleUntilFArgsGo_no_cap (env : Env) (f : α → β) (dur : Option ℚ) (mp : ℚ)
    (ht : ∀ j, timeFires env dur j = false) (hm : ∀ j, memFires env mp j = false) :
    ∀ (l : List α) (k : Nat) (acc : List β),
      sampleUntilFArgsGo env f dur none mp l k acc = acc ++ l.map f := by
  intro l
  induction l with
  | nil => intro k acc; simp [sampleUntilFArgsGo]
  | cons a rest ih =>
    intro k acc
    simp only [sampleUntilFArgsGo, ht k, hm k, capFires, Bool.false_or, Bool.or_false,
      Bool.false_eq_true, if_false]
    rw [ih (k + 1) (acc ++ [f a])]
    simp

/-- A sampling loop in which neither the time condition nor the memory
condition ever fires and the count bound is `ci` maps `f` over the input
until the sample list reaches `ci` elements. -/
lemma sampleUntilFArgsGo_cap (env : Env) (f : α → β) (dur : Option ℚ) (mp : ℚ) (ci : Int)
    (ht : ∀ j, timeFires env dur j = false) (hm : ∀ j, memFires env mp j = false) :
    ∀ (l : List α) (k : Nat) (acc : List β),
      sampleUntilFArgsGo env f dur (some ci) mp l k acc =
        acc ++ (l.take (ci.toNat - acc.length)).map f := by
  intro l
  induction l with
  | nil => intro k acc; simp [sampleUntilFArgsGo]
  | cons a rest ih =>
    intro k acc
    by_cases hc : ci ≤ (acc.length : Int)
    · have hcf : capFires (some ci) acc.length = true := by
        simp only [capFires, decide_eq_true_eq]; exact hc
      have hz : ci.toNat - acc.length = 0 := by omega
      simp [sampleUntilFArgsGo, ht k, hm k, hcf, hz]
    · have hcf : capFires (some ci) acc.length = false := by
        simp only [capFires, decide_eq_false_iff_not]; exact hc
      simp only [sampleUntilFArgsGo, ht k, hm k, hcf, Bool.false_or, Bool.or_false,
        Bool.false_eq_true, if_false]
      rw [ih (k + 1) (acc ++ [f a])]
      have h1 : ci.toNat - acc.length = (ci.toNat - (acc ++ [f a]).length) + 1 := by
        simp only [List.length_append, List.length_singleton]
        omega
      rw [h1, List.take_succ_cons]
      simp

/-- Unfolding rule of `takeEvery` on `[]`. -/
lemma takeEvery_nil (n : Nat) : takeEvery n ([] : List α) = [] := by
  simp [takeEvery]

/-- Unfolding rule of `takeEvery` on a cons cell. -/
lemma takeEvery_cons (n : Nat) (a : α) (rest : List α) :
    takeEvery n (a :: rest) = a :: takeEvery n (rest.drop (n - 1)) := by
  rw [takeEvery]

/-- Length of an interleaved slice: `takeEvery n` keeps the ceiling of
`length / n` elements. -/
lemma takeEvery_length (n : Nat) (hn : 0 < n) :
    ∀ (l : List α), (takeEvery n l).length = (l.length + (n - 1)) / n := by
  have main : ∀ (L : Nat) (l : List α), l.length = L →
      (takeEvery n l).length = (l.length + (n - 1)) / n := by
    intro L
    induction L using Nat.strong_induction_on with
    | _ L ih =>
      intro l hL
      cases l with
      | nil =>
        rw [takeEvery_nil]
        simp only [List.length_nil, Nat.zero_add]
        rw [Nat.div_eq_of_lt (by omega)]
      | cons a rest =>
        rw [takeEvery_cons]
        simp only [List.length_cons]
        have hdrop : (rest.drop (n - 1)).length = rest.length - (n - 1) := List.length_drop _ _
        have hlt : (rest.drop (n - 1)).length < L := by
          rw [hdrop]
          simp only [List.length_cons] at hL
          omega
        rw [ih _ hlt _ rfl, hdrop]
        rcases Nat.le_total (n - 1) rest.length with h | h
        · rw [Nat.sub_add_cancel h]
          have : rest.length + 1 + (n - 1) = rest.length + n := by omega
          rw [this, Nat.add_div_right _ hn]
        · have h0 : rest.length - (n - 1) = 0 := by omega
          have h1 : rest.length + 1 + (n - 1) = rest.length + n := by omega
          rw [h0, h1, Nat.zero_add, Nat.div_eq_of_lt (by omega), Nat.add_div_right _ hn,
            Nat.div_eq_of_lt (by omega)]
  exact fun l => main l.length l rfl

/-- Length of worker `i`'s interleaved slice of the input stream. -/
lemma islice_interleaved_length (l : List α) (i N : Nat) (hN : 0 < N) :
    (islice_interleaved l i N).length = ((l.length - i) + (N - 1)) / N := by
  unfold islice_interleaved
  rw [takeEvery_length N hN, List.length_drop]

/-- Sentinel count is additive over queue traces. -/
lemma doneCount_append (q1 q2 : List (QItem β)) :
    doneCount (q1 ++ q2) = doneCount q1 + doneCount q2 := by
  induction q1 with
  | nil => simp [doneCount]
  | cons x rest ih =>
    cases x with
    | done => simp [doneCount, ih]; omega
    | batch l => simp [doneCount, ih]

/-- Batch contents are additive over queue traces. -/
lemma batchItems_append (q1 q2 : List (QItem β)) :
    batchItems (q1 ++ q2) = batchItems q1 ++ batchItems q2 := by
  induction q1 with
  | nil => simp [batchItems]
  | cons x rest ih =>
    cases x with
    | done => simp [batchItems, ih]
    | batch l => simp [batchItems, ih]

/-- A queue trace ending in a `DoneSignal` contains at least one. -/
lemma doneCount_pos_of_getLast (q : List (QItem β)) (h : q.getLast? = some .done) :
    0 < doneCount q := by
  induction q with
  | nil => simp at h
  | cons x rest ih =>
    cases rest with
    | nil =>
      cases x with
      | done => simp [doneCount]
      | batch l => simp at h
    | cons y rest' =>
      rw [List.getLast?_cons_cons] at h
      have := ih h
      cases x with
      | done => simp [doneCount]
      | batch l => simpa [doneCount] using this

/-- The worker loop never puts a `DoneSignal` on the queue: every put it
performs is a sample batch. -/
lemma workerGo_doneCount (env : Env) (pickle : List β → Nat) (f : α → β) (bs : Nat) :
    ∀ (l : List α) (i : Nat) (batch : List β) (puts : List (QItem β))
      (conds : List StoppingCondition),
      doneCount (workerGo env pickle f bs l i batch puts conds).1 = doneCount puts := by
  intro l
  induction l with
  | nil =>
    intro i batch puts conds
    simp only [workerGo]
    split
    · simp [doneCount_append]
    · simp [doneCount_append, doneCount]
  | cons a rest ih =>
    intro i batch puts conds
    simp only [workerGo]
    rcases hstop : stop pickle (env.timeAt (i + 1)) (env.memAt (i + 1)) conds
        (Progress.count (i + 1)) with e | ⟨b, conds'⟩
    · simp only [hstop]
      split
      · simp [doneCount_append, doneCount]
      · simp
    · cases b with
      | true =>
        simp only [hstop]
        split
        · split
          · simp [doneCount_append, doneCount]
          · simp [doneCount_append, doneCount]
        · split
          · simp [doneCount_append, doneCount]
          · simp [doneCount_append, doneCount]
      | false =>
        simp only [hstop]
        split
        · rw [ih]
          simp [doneCount_append, doneCount]
        · rw [ih]

/-- The aggregator loop, run on a queue trace holding exactly the
sentinels it still waits for and ending with a sentinel, consumes the
whole trace, folds every batched sample in arrival order, and returns
the accumulator together with the total sample count. -/
lemma aggregateGo_spec (fold : A → β → A) (n : Nat) :
    ∀ (q : List (QItem β)) (acc : A) (i fin : Nat),
      doneCount q + fin = n → q.getLast? = some .done →
      aggregateGo fold n q acc i fin =
        some ((batchItems q).foldl fold acc, i + (batchItems q).length) := by
  intro q
  induction q with
  | nil => intro acc i fin h1 h2; simp at h2
  | cons x rest ih =>
    intro acc i fin h1 h2
    have hfin : fin < n := by
      have := doneCount_pos_of_getLast (x :: rest) h2
      omega
    cases x with
    | done =>
      rw [aggregateGo, if_neg (by omega)]
      cases rest with
      | nil =>
        rw [aggregateGo]
        have hone : doneCount ([QItem.done] : List (QItem β)) = 1 := by simp [doneCount]
        rw [if_pos (by simp [doneCount] at h1; omega)]
        simp [batchItems]
      | cons y rest' =>
        rw [List.getLast?_cons_cons] at h2
        rw [ih acc i (fin + 1) (by simp [doneCount] at h1 ⊢; omega) h2]
        simp [batchItems]
    | batch l =>
      rw [aggregateGo, if_neg (by omega)]
      cases rest with
      | nil => simp at h2
      | cons y rest' =>
        rw [List.getLast?_cons_cons] at h2
        rw [ih (l.foldl fold acc) (i + l.length) fin (by simp [doneCount] at h1 ⊢; omega) h2]
        simp only [batchItems, List.foldl_append, List.length_append]
        rw [Nat.add_assoc]

/-- C1: the claim says the folded entry point and the non-folding entry
point agree on finite deterministic inputs (inputs `0..99`, `f = id`,
`combine = +`, initial `10`, giving `(4960, 100)` from the folded run).
In this snapshot `folded_sample_until` instead raises `TypeError` for
every call and every worker count — `sanitize_inputs` passes only 4 of
the 5 required positional arguments of `create_stopping_conditions` —
while the non-folding entry point does produce samples that accumulate
to `4960`. This theorem evaluates both entry points on exactly the
claimed inputs (worker counts 1 and 4). -/
theorem claim_C1 :
    folded_sample_until env0 pickle0 (fun x : Nat => x) (fun a b : Nat => a + b) 10
        (List.range 100) none none none (some 1) = .error .typeError ∧
    folded_sample_until env0 pickle0 (fun x : Nat => x) (fun a b : Nat => a + b) 10
        (List.range 100) none none none (some 4) = .error .typeError ∧
    ∃ out : List Nat,
      sample_until env0 (fun x : Nat => x) (.finiteIter (List.range 100) false)
          none none none none = ([.finitenessUnknown], .ok (.samples out)) ∧
      out.foldl (fun a b => a + b) 10 = 4960 ∧ out.length = 100 := by
  refine ⟨rfl, rfl, ?_⟩
  have hm : ∀ j, memFires env0 1 j = false := by
    intro j
    simp only [memFires, env0, decide_eq_false_iff_not]
    norm_num
  have hrun : _sample_until_f_args env0 (fun x : Nat => x) (List.range 100) none none 1 =
      List.range 100 := by
    unfold _sample_until_f_args
    rw [sampleUntilFArgsGo_no_cap env0 _ none 1 (fun _ => rfl) hm]
    simp
  have hcall : sample_until env0 (fun x : Nat => x) (.finiteIter (List.range 100) false)
      none none none none =
      ([.finitenessUnknown],
        .ok (.samples (_sample_until_f_args env0 (fun x : Nat => x) (List.range 100)
          none none 1))) := rfl
  rw [hrun] at hcall
  exact ⟨List.range 100, hcall, by decide, by decide⟩

/-- C2 counterexample: the claim says every sampling worker emits
exactly one Done sentinel to the aggregation queue upon finishing its
local stream. Running `_worker` to completion over the stream
`[5, 6, 7]` (batch size 1, no stopping conditions), the trace of queue
puts it performs is three sample batches and contains no Done sentinel
at all — the sentinel is placed by the parent process after joining the
worker, not by the worker. -/
theorem claim_C2_counterexample :
    (_worker env0 pickle0 (fun x : Nat => x) [5, 6, 7] [] 1).1 =
      [.batch [5], .batch [6], .batch [7]] ∧
    ¬ doneCount (_worker env0 pickle0 (fun x : Nat => x) [5, 6, 7] [] 1).1 = 1 :=
  ⟨rfl, by decide⟩

/-- C2 (amended): a sampling worker itself emits only sample batches —
never a Done sentinel — and exactly one Done sentinel per worker is
placed on the aggregation queue by the parent process after joining
that worker; the aggregator terminates only once it has observed one
Done sentinel per sampling worker (in every realizable arrival order
the queue trace ends with the last sentinel) and then publishes the
pair (accumulator, total sample count) on the result channel. -/
theorem claim_C2 {α β A : Type} (env : Env) (pickle : List β → Nat) (f : α → β)
    (fold : A → β → A) (init : A) :
    (∀ (f_args : List α) (conds : List StoppingCondition) (batch_size : Nat),
      doneCount (_worker env pickle f f_args conds batch_size).1 = 0) ∧
    (∀ (num_workers : Nat) (q : List (QItem β)),
      doneCount q = num_workers → q.getLast? = some .done →
      _aggregate fold init num_workers q =
        some ((batchItems q).foldl fold init, (batchItems q).length)) := by
  constructor
  · intro fargs conds bs
    have h := workerGo_doneCount env pickle f bs fargs 0 [] [] conds
    simpa [_worker, doneCount] using h
  · intro n q h1 h2
    have h := aggregateGo_spec fold n q init 0 0 (by omega) h2
    simpa [_aggregate] using h

/-- C2 witness: a concrete two-worker queue trace — two batches and two
sentinels, ending with a sentinel — on which the aggregator publishes
the sum of all samples and their count. -/
theorem claim_C2_witness :
    doneCount ([.batch [1, 2], .done, .batch [3], .done] : List (QItem Nat)) = 2 ∧
    ([.batch [1, 2], .done, .batch [3], .done] : List (QItem Nat)).getLast? = some .done ∧
    doneCount (_worker env0 pickle0 (fun x : Nat => x) [5] [] 1).1 = 0 ∧
    _aggregate (fun a b : Nat => a + b) 0 2 [.batch [1, 2], .done, .batch [3], .done] =
      some (6, 3) := by
  have h := claim_C2 (α := Nat) env0 pickle0 (fun x => x) (fun a b : Nat => a + b) 0
  refine ⟨by decide, by decide, h.1 [5] [] 1, ?_⟩
  have h2 := h.2 2 [.batch [1, 2], .done, .batch [3], .done] (by decide) (by decide)
  exact h2.trans (by decide)

/-- C4: the claim says exactly one advisory is emitted over the whole
wait when the timeout elapses with the aggregator alive. In the source
the `warned` latch is re-initialized to `False` at the top of every
`while True` iteration, so the advisory is emitted on every timed-out
iteration: a wait that times out twice before the result arrives emits
two advisories. The fatal part of the claim does hold: a timeout that
finds the aggregator dead raises the folding-crashed error, with no
retry and no partial result. -/
theorem claim_C4 :
    waitForAggregator (R := Nat × Nat) [.timeoutAlive, .timeoutAlive, .got (4960, 100)] =
      ([.foldingSlow, .foldingSlow], some (.ok (4960, 100))) ∧
    waitForAggregator (R := Nat × Nat) [.timeoutAlive, .timeoutDead] =
      ([.foldingSlow], some (.error .runtimeErrorFoldingCrashed)) :=
  ⟨rfl, rfl⟩

/-- C6: the claim says `sample_until` with `num_samples = 0` raises a
configuration error before any work starts. The source checks
`num_samples < 0` (its own message says "has to be > 0", and the
`NumSamples` dataclass rejects `<= 0`), so `num_samples = 0` passes
validation and the call returns the empty sample list instead of
raising. -/
theorem claim_C6 :
    sample_until env0 (fun x : Nat => x) (.finiteIter [10, 11, 12] true) none (some 0)
      none none = ([], .ok (.samples [])) := rfl

/-- C7: the claim says the public `sample_until` accepts an optional
`size_mb` argument. The signature of `sample_until` in
`sample_until.py` has parameters `f, f_args, duration_seconds,
num_samples, memory_percentage, num_workers` only, so a call passing
`size_mb` (as the repository's own `test_sample_until_size.py` does)
raises `TypeError` instead of stopping on the estimated output size. -/
theorem claim_C7 : acceptsKeyword sample_until_params size_mb_kw = false := by decide

/-- C9: for a global count target `c > 0` and worker count `N >= 1`,
`create_stopping_conditions` builds exactly one count condition whose
per-worker target is `ceil(c / N)`, and `N` workers' targets sum to at
least `c`, so worker-local stopping never under-counts. -/
theorem claim_C9 (c : Int) (N : Nat) (now : ℚ) (hc : 0 < c) (hN : 0 < N) :
    create_stopping_conditions now N none (some c) none none =
      .ok [.numSamples (ceil_div c N)] ∧
    c ≤ (N : Int) * ceil_div c N := by
  constructor
  · have hpos := ceil_div_pos c N hc hN
    have hmk : NumSamples_mk (ceil_div c N) = .ok (.numSamples (ceil_div c N)) := by
      unfold NumSamples_mk
      rw [if_neg (by omega)]
    simp [create_stopping_conditions, hmk]
  · exact le_mul_ceil_div c N hN

/-- C9 witness: target 5 split over 3 workers gives a per-worker target
of `ceil(5/3) = 2` and `3 * 2 >= 5`. -/
theorem claim_C9_witness :
    (0 : Int) < 5 ∧ (0 : Nat) < 3 ∧
    create_stopping_conditions 0 3 none (some 5) none none =
      .ok [.numSamples (ceil_div 5 3)] ∧
    (5 : Int) ≤ 3 * ceil_div 5 3 ∧ ceil_div 5 3 = 2 := by
  have h := claim_C9 5 3 0 (by norm_num) (by norm_num)
  refine ⟨by norm_num, by norm_num, h.1, ?_, ?_⟩
  · have := h.2
    simpa using this
  · rw [ceil_div_eq_neg_ediv]
    decide

/-- C10: the claim says evaluating the stopping conditions is total for
integer-count progress as passed by the folded sequential sampler. But
`NumSamples.stop` evaluates `len(samples)` on its progress argument and
`len` of an `int` raises `TypeError`: `stop([NumSamples(50)], 1)`
raises, and `_sample_until_folded` with a count condition raises on its
first iteration instead of sampling. -/
theorem claim_C10 :
    stop pickle0 0 0 [.numSamples 50] (.count 1) = .error .typeError ∧
    _sample_until_folded env0 pickle0 (fun x : Nat => x) (fun a b : Nat => a + b) 0
      (List.range 100) [.numSamples 50] = .error .typeError :=
  ⟨rfl, rfl⟩

/-- C5: with zero stopping conditions, `sample_until` raises the
configuration error when `f_args` is absent or one of the canonical
infinite generators (`repeat`, `cycle`, `count`); for an opaque
not-`Sized` iterator it proceeds and emits the finiteness advisory; for
a `Sized` input it proceeds without error or warning. -/
theorem claim_C5 {α β : Type} (env : Env) (f : α → β) :
    (∀ nw : Option Int,
      sample_until env f (FArgsV.pyNone (α := α)) none none none nw =
        ([], .error .valueErrorProvideStoppingCondition) ∧
      sample_until env f (FArgsV.pyRepeat (α := α)) none none none nw =
        ([], .error .valueErrorProvideStoppingCondition) ∧
      sample_until env f (FArgsV.pyCycle (α := α)) none none none nw =
        ([], .error .valueErrorProvideStoppingCondition) ∧
      sample_until env f (FArgsV.pyCount (α := α)) none none none nw =
        ([], .error .valueErrorProvideStoppingCondition)) ∧
    (∀ (l : List α) (n : Nat), 1 ≤ n →
      (∃ out : List β,
        sample_until env f (.finiteIter l false) none none none (some (n : Int)) =
          ([.finitenessUnknown], .ok (.samples out))) ∧
      (∃ out : List β,
        sample_until env f (.finiteIter l true) none none none (some (n : Int)) =
          ([], .ok (.samples out)))) := by
  constructor
  · intro nw
    exact ⟨rfl, rfl, rfl, rfl⟩
  · intro l n hn
    have hne : ((n : Int) = -1) = False := eq_false (by omega)
    have hlt : (((n : Int) < 1) = False) := eq_false (by exact_mod_cast Nat.not_lt.mpr hn)
    constructor
    · by_cases h1 : (n : Int) = 1
      · exact ⟨_sample_until_f_args env f l none none 1, by
          unfold sample_until sample_until_validate
          simp [optCheck, hne, hlt, h1, check_stopping_conditions_provided]⟩
      · exact ⟨(sample_until_parallel env f l none none 1 n).flatten, by
          unfold sample_until sample_until_validate
          simp [optCheck, hne, hlt, h1, check_stopping_conditions_provided]⟩
    · by_cases h1 : (n : Int) = 1
      · exact ⟨_sample_until_f_args env f l none none 1, by
          unfold sample_until sample_until_validate
          simp [optCheck, hne, hlt, h1, check_stopping_conditions_provided]⟩
      · exact ⟨(sample_until_parallel env f l none none 1 n).flatten, by
          unfold sample_until sample_until_validate
          simp [optCheck, hne, hlt, h1, check_stopping_conditions_provided]⟩

/-- C5 witness: the absent-input call errors, while a not-`Sized` and a
`Sized` two-element input both proceed (with and without the advisory,
respectively) under one worker. -/
theorem claim_C5_witness :
    (1 : Nat) ≤ 1 ∧
    sample_until env0 (fun x : Nat => x) (FArgsV.pyNone (α := Nat)) none none none none =
      ([], .error .valueErrorProvideStoppingCondition) ∧
    (∃ out : List Nat,
      sample_until env0 (fun x : Nat => x) (.finiteIter [7, 8] false) none none none
        (some ((1 : Nat) : Int)) = ([.finitenessUnknown], .ok (.samples out))) ∧
    (∃ out : List Nat,
      sample_until env0 (fun x : Nat => x) (.finiteIter [7, 8] true) none none none
        (some ((1 : Nat) : Int)) = ([], .ok (.samples out))) := by
  have h := claim_C5 env0 (fun x : Nat => x)
  exact ⟨le_refl 1, (h.1 none).1, (h.2 [7, 8] 1 (le_refl 1)).1, (h.2 [7, 8] 1 (le_refl 1)).2⟩

/-- C8: the `OutputSize` condition never fires on a freshly-constructed
instance before 2 samples are observed; at 2 or more samples it sets
its estimate to the serialized size of the first two samples minus that
of the first, and fires exactly when `estimate * count >= limit`;
construction rejects a non-positive limit; and
`create_stopping_conditions` divides the limit by the worker count at
construction. -/
theorem claim_C8 {β : Type} (pickle : List β → Nat) (now memNow : ℚ) (s : ℚ)
    (l : List β) (N : Nat) :
    (s ≤ 0 → OutputSize_mk s = .error .valueErrorSizeMb) ∧
    (0 < s → OutputSize_mk s = .ok (.outputSize s 0)) ∧
    (l.length < 2 →
      scStop pickle now memNow (.outputSize s 0) (.samples l) = .ok (false, .outputSize s 0)) ∧
    (2 ≤ l.length →
      scStop pickle now memNow (.outputSize s 0) (.samples l) =
        .ok (decide (s ≤ ((pickle (l.take 2) : ℚ) / 1000000 - (pickle (l.take 1) : ℚ) / 1000000)
              * (l.length : ℚ)),
          .outputSize s
            ((pickle (l.take 2) : ℚ) / 1000000 - (pickle (l.take 1) : ℚ) / 1000000))) ∧
    (0 < N → 0 < s →
      create_stopping_conditions now N none none none (some s) =
        .ok [.outputSize (s / (N : ℚ)) 0]) := by
  refine ⟨?_, ?_, ?_, ?_, ?_⟩
  · intro h
    unfold OutputSize_mk
    rw [if_pos h]
  · intro h
    unfold OutputSize_mk
    rw [if_neg (not_le.mpr h)]
  · intro h
    simp only [scStop]
    rw [if_pos trivial, if_neg (by omega)]
  · intro h
    simp only [scStop]
    rw [if_pos trivial, if_pos (by omega)]
  · intro hN hs
    have hpos : 0 < s / (N : ℚ) := by
      apply div_pos hs
      exact_mod_cast hN
    have hmk : OutputSize_mk (s / (N : ℚ)) = .ok (.outputSize (s / (N : ℚ)) 0) := by
      unfold OutputSize_mk
      rw [if_neg (not_le.mpr hpos)]
    simp [create_stopping_conditions, hmk]

/-- C8 witness: with a serializer charging 2 MB per element, a fresh
condition with limit 5 MB does not fire on one sample, calibrates to a
2 MB estimate on three samples and fires (`2 * 3 >= 5`); construction
rejects limit `-1` and accepts limit `5`; two workers get limit
`5 / 2` each. -/
theorem claim_C8_witness :
    OutputSize_mk (-1) = .error .valueErrorSizeMb ∧
    OutputSize_mk 5 = .ok (.outputSize 5 0) ∧
    scStop pickle0 0 0 (.outputSize 5 0) (.samples [1]) = .ok (false, .outputSize 5 0) ∧
    scStop pickle0 0 0 (.outputSize 5 0) (.samples [1, 2, 3]) = .ok (true, .outputSize 5 2) ∧
    create_stopping_conditions 0 2 none none none (some 5) =
      .ok [.outputSize (5 / 2) 0] := by
  have h := claim_C8 (β := Nat) pickle0 0 0 5 [1, 2, 3] 2
  refine ⟨(claim_C8 (β := Nat) pickle0 0 0 (-1) [] 2).1 (by norm_num),
    h.2.1 (by norm_num),
    (claim_C8 (β := Nat) pickle0 0 0 5 [1] 2).2.2.1 (by norm_num), ?_, ?_⟩
  · have h4 := h.2.2.2.1 (by norm_num)
    rw [h4]
    norm_num [pickle0]
  · have h5 := h.2.2.2.2 (by norm_num) (by norm_num)
    simpa using h5

/-- C3: with a count target `c > 0`, inputs to spare, and neither the
time nor the memory condition ever firing, a single-worker
`sample_until` returns exactly `c` samples — `f` applied to the first
`c` inputs in order — while an `N`-worker run (`N > 1`) returns at
least `c` samples and at most `c + N` (each of the `N` workers can
overshoot its `ceil(c / N)` share by at most the rounding slack). -/
theorem claim_C3 {α β : Type} (env : Env) (f : α → β) (c N : Nat) (l : List α)
    (hc : 1 ≤ c) (hmem : ∀ k, memFires env 1 k = false) :
    (c ≤ l.length →
      sample_until env f (.finiteIter l true) none (some (c : Int)) none (some 1) =
        ([], .ok (.samples ((l.take c).map f))) ∧
      ((l.take c).map f).length = c) ∧
    (2 ≤ N → c + N ≤ l.length →
      ∃ out : List β,
        sample_until env f (.finiteIter l true) none (some (c : Int)) none (some (N : Int)) =
          ([], .ok (.samples out)) ∧ c ≤ out.length ∧ out.length ≤ c + N) := by
  have hge : (((c : Int)) < 0) = False := eq_false (by omega)
  constructor
  · intro hlen
    constructor
    · have hcall : sample_until env f (.finiteIter l true) none (some (c : Int)) none
          (some 1) =
          ([], .ok (.samples (_sample_until_f_args env f l none (some (c : Int)) 1))) := by
        unfold sample_until sample_until_validate
        simp [optCheck, check_stopping_conditions_provided, hge]
      rw [hcall]
      unfold _sample_until_f_args
      rw [sampleUntilFArgsGo_cap env f none 1 (c : Int) (fun _ => rfl) hmem l 0 []]
      simp [Int.toNat_natCast]
    · simp only [List.length_map, List.length_take]
      exact min_eq_left hlen
  · intro hN hlen
    have hN0 : 0 < N := by omega
    have hNe1 : ((N : Int) = -1) = False := eq_false (by omega)
    have hNlt : (((N : Int)) < 1) = False := eq_false (by omega)
    have hN1 : ((N : Int) = 1) = False := eq_false (by omega)
    have hcall : sample_until env f (.finiteIter l true) none (some (c : Int)) none
        (some (N : Int)) =
        ([], .ok (.samples (sample_until_parallel env f l none (some (c : Int)) 1
          N).flatten)) := by
      unfold sample_until sample_until_validate
      simp [optCheck, check_stopping_conditions_provided, hNe1, hNlt, hN1, hge,
        Int.toNat_natCast]
    have hworker : ∀ i, i < N →
        (_sample_until_f_args env f (islice_interleaved l i N) none
          (some (ceil_div (c : Int) N)) 1).length = (ceil_div (c : Int) N).toNat := by
      intro i hi
      unfold _sample_until_f_args
      rw [sampleUntilFArgsGo_cap env f none 1 _ (fun _ => rfl) hmem]
      simp only [List.nil_append, List.length_map, List.length_take, List.length_nil,
        Nat.sub_zero]
      have hslice : (islice_interleaved l i N).length = ((l.length - i) + (N - 1)) / N :=
        islice_interleaved_length l i N hN0
      have hmle : (ceil_div (c : Int) N).toNat ≤ (islice_interleaved l i N).length := by
        rw [hslice, Nat.le_div_iff_mul_le hN0]
        calc (ceil_div (c : Int) N).toNat * N = N * (ceil_div (c : Int) N).toNat :=
              Nat.mul_comm _ N
          _ ≤ c + (N - 1) := nat_mul_ceil_div_le c N hN0
          _ ≤ (l.length - i) + (N - 1) := by omega
      exact min_eq_left hmle
    have htotal : ((sample_until_parallel env f l none (some (c : Int)) 1 N).flatten).length
        = N * (ceil_div (c : Int) N).toNat := by
      rw [List.length_flatten]
      unfold sample_until_parallel
      rw [List.map_map]
      have hrep : (List.range N).map (List.length ∘ fun i =>
          _sample_until_f_args env f (islice_interleaved l i N) none
            ((some ((c : Nat) : Int)).map fun a => ceil_div a N) 1) =
          List.replicate N (ceil_div (c : Int) N).toNat := by
        apply List.eq_replicate_iff.mpr
        constructor
        · simp
        · intro b hb
          simp only [List.mem_map, List.mem_range, Function.comp, Option.map_some'] at hb
          obtain ⟨i, hi, rfl⟩ := hb
          exact hworker i hi
      rw [hrep, List.sum_replicate, smul_eq_mul]
    refine ⟨(sample_until_parallel env f l none (some (c : Int)) 1 N).flatten, hcall, ?_, ?_⟩
    · rw [htotal]
      exact nat_le_mul_ceil_div c N hN0
    · rw [htotal]
      have := nat_mul_ceil_div_le c N hN0
      omega

/-- C3 witness: count target 5 over inputs `0..9`: the single-worker
run returns exactly the first five inputs; the three-worker run returns
between 5 and 8 samples. -/
theorem claim_C3_witness :
    ((1 : Nat) ≤ 5 ∧ ∀ k, memFires env0 1 k = false) ∧
    (sample_until env0 (fun x : Nat => x) (.finiteIter (List.range 10) true) none
        (some ((5 : Nat) : Int)) none (some 1) =
      ([], .ok (.samples (((List.range 10).take 5).map fun x => x))) ∧
      (((List.range 10).take 5).map fun x : Nat => x).length = 5) ∧
    (∃ out : List Nat,
      sample_until env0 (fun x : Nat => x) (.finiteIter (List.range 10) true) none
          (some ((5 : Nat) : Int)) none (some ((3 : Nat) : Int)) =
        ([], .ok (.samples out)) ∧ 5 ≤ out.length ∧ out.length ≤ 5 + 3) := by
  have hm : ∀ k, memFires env0 1 k = false := by
    intro k
    simp only [memFires, env0, decide_eq_false_iff_not]
    norm_num
  have h := claim_C3 env0 (fun x : Nat => x) 5 3 (List.range 10) (by norm_num) hm
  exact ⟨⟨by norm_num, hm⟩, h.1 (by simp), h.2 (by norm_num) (by simp)⟩

end SampleUntil
